import Mathlib

/-!
Shallow embedding of the FFT hardware-generator object model from
`src/codegen/gen_fft_modules.py` and the twiddle-ROM table generator from
`src/codegen/gen_twiddle_rom_partial.py`.

The repository imports a small bit-order utility module
(`gen_fft_utils.py`) that is not present under `src/`; the two functions of
it that the embedded code depends on (`myLog2` and `bitOrderIsNatural`) are
modelled here from the specification of the bit-order utility interface.
-/

namespace FFTGen

/-- Fuel-driven base-2 logarithm (the fuel makes it structurally recursive,
hence evaluable by the kernel); with fuel at least `n` it is the usual
`⌊log2 n⌋`. -/
def log2Aux : Nat → Nat → Nat
  | 0, _ => 0
  | fuel + 1, n => if n ≥ 2 then log2Aux fuel (n / 2) + 1 else 0

/-- Modelled from the spec: the bit-order utility's `log2Exact(n) -> k`
(`myLog2` in the source), integer base-2 logarithm with power-of-two
enforcement; it fails unless `n` is a positive power of two, so it is only
meaningful on powers of two, where it returns the exact exponent
(`myLog2_two_pow` below). -/
def myLog2 (n : Nat) : Nat := log2Aux n n

/-- Modelled from the spec: the bit-order utility's
`isNaturalOrder(order) -> bool` (`bitOrderIsNatural` in the source), true
iff `order` is the identity permutation `[0, 1, ..., len-1]`. -/
def bitOrderIsNatural (order : List Nat) : Bool :=
  order == List.range order.length

/-- `class Multiplier`: a named opaque complex-multiplier component with a
declared pipeline delay (`self.entity`, `self.delay1`). -/
structure Multiplier where
  entity : String
  delay1 : Nat
deriving DecidableEq

/-- `Multiplier.delay()`: returns the stored delay. -/
def Multiplier.delay (m : Multiplier) : Nat := m.delay1

/-- `defaultMult = Multiplier('complexMultiply2', 6)`. -/
def defaultMult : Multiplier := ⟨"complexMultiply2", 6⟩

/-- `largeMult = Multiplier('dsp48e1_complexMultiply', 9)`. -/
def largeMult : Multiplier := ⟨"dsp48e1_complexMultiply", 9⟩

/-- The state of an architecture node: an `FFTBase` leaf, an `FFT4Step`
composite, or an `FFTSPDF` composite.  Each constructor carries exactly the
mutable attributes of the corresponding Python object that the embedded
operations read or write: the stored size `N`, the children, the current
multiplier, and the stored `imports` list (which `getImports` mutates).
For a leaf the stored input/output bit orders (`iBitOrder`/`oBitOrder`)
are carried as well. -/
inductive FFTNode where
  | base (N : Nat) (entity scale : String) (delay1 : Nat)
      (iBitOrder oBitOrder : List Nat) (imports : List String)
  | step4 (N : Nat) (sub1 sub2 : FFTNode) (multiplier : Multiplier)
      (imports : List String)
  | spdf (N : Nat) (sub1 : FFTNode) (multiplier : Multiplier)
      (imports : List String)
deriving DecidableEq

/-- `self.N`: the stored transform size. -/
def FFTNode.N : FFTNode → Nat
  | .base N _ _ _ _ _ _ => N
  | .step4 N _ _ _ _ => N
  | .spdf N _ _ _ => N

/-- `self.imports`: the stored imports list. -/
def FFTNode.imports : FFTNode → List String
  | .base _ _ _ _ _ _ imp => imp
  | .step4 _ _ _ _ imp => imp
  | .spdf _ _ _ imp => imp

/-- `self.multiplier`: the multiplier currently in effect (meaningful on
composites only; a leaf has none). -/
def FFTNode.multiplier : FFTNode → Option Multiplier
  | .base _ _ _ _ _ _ _ => none
  | .step4 _ _ _ m _ => some m
  | .spdf _ _ m _ => some m

/-- `FFT4Step.reorderAdditiveDelay = 0` / `FFTSPDF.reorderAdditiveDelay = 0`
(set in both constructors). -/
def reorderAdditiveDelay : Nat := 0

/-- `FFTSPDF.__init__`: `self.spdf_delay = N/2 + 3 + N/4 + 3`
(Python 2 integer division). -/
def spdf_delay (N : Nat) : Nat := N / 2 + 3 + N / 4 + 3

/-- `inputBitOrder()` of each node variant.
* leaf: returns the stored `self.iBitOrder`;
* `FFT4Step`: `range(O1, O1+O2) + sub1.inputBitOrder()` with
  `O1 = myLog2(sub1.N)`, `O2 = myLog2(sub2.N)`;
* `FFTSPDF`: `range(0, myLog2(N))`. -/
def FFTNode.inputBitOrder : FFTNode → List Nat
  | .base _ _ _ _ i _ _ => i
  | .step4 _ sub1 sub2 _ _ =>
      List.range' (myLog2 sub1.N) (myLog2 sub2.N) ++ sub1.inputBitOrder
  | .spdf N _ _ _ => List.range (myLog2 N)

/-- `outputBitOrder()` of each node variant.
* leaf: returns the stored `self.oBitOrder`;
* `FFT4Step`: `[x+O2 for x in sub1.outputBitOrder()] + sub2.outputBitOrder()`;
* `FFTSPDF`: `[x+O1 for x in [1,0]] + sub1.outputBitOrder()`. -/
def FFTNode.outputBitOrder : FFTNode → List Nat
  | .base _ _ _ _ _ o _ => o
  | .step4 _ sub1 sub2 _ _ =>
      (sub1.outputBitOrder.map (fun x => x + myLog2 sub2.N)) ++
        sub2.outputBitOrder
  | .spdf _ sub1 _ _ =>
      ([1, 0].map (fun x => x + myLog2 sub1.N)) ++ sub1.outputBitOrder

/-- `delay()` of each node variant.
* leaf: the declared constant `self.delay1`;
* `FFT4Step`: `sub1.delay() + N + multDelay + sub2.delay()`, plus
  `reorderDelay = sub2.N + reorderAdditiveDelay` when `sub2Transposer`
  (i.e. when `sub2.inputBitOrder()` is not natural);
* `FFTSPDF`: `spdf_delay + sub1.delay() + multDelay`, plus
  `reorderDelay = sub1.N + reorderAdditiveDelay` when `sub1Transposer`.
`multDelay` is kept equal to `multiplier.delay()` by the source
(`__init__` and `setMultiplier` both assign both). -/
def FFTNode.delay : FFTNode → Nat
  | .base _ _ _ d _ _ _ => d
  | .step4 N sub1 sub2 m _ =>
      let d := sub1.delay + N + m.delay + sub2.delay
      if bitOrderIsNatural sub2.inputBitOrder then d
      else d + (sub2.N + reorderAdditiveDelay)
  | .spdf N sub1 m _ =>
      let d := spdf_delay N + sub1.delay + m.delay
      if bitOrderIsNatural sub1.inputBitOrder then d
      else d + (sub1.N + reorderAdditiveDelay)

/-- `FFT4Step.sub2Transposer` / `FFTSPDF.sub1Transposer`: whether a reorder
buffer is instantiated (decided in `__init__` from the child's required
input bit order). `none` for a leaf, which has no such attribute. -/
def FFTNode.transposer : FFTNode → Option Bool
  | .base _ _ _ _ _ _ _ => none
  | .step4 _ _ sub2 _ _ => some (!bitOrderIsNatural sub2.inputBitOrder)
  | .spdf _ sub1 _ _ => some (!bitOrderIsNatural sub1.inputBitOrder)

/-- `self.simpleTwiddleRom`, set in both composite constructors:
`False` if `N > 32` else `True`.  `none` for a leaf. -/
def FFTNode.simpleTwiddleRom : FFTNode → Option Bool
  | .base _ _ _ _ _ _ _ => none
  | .step4 N _ _ _ _ => some (if N > 32 then false else true)
  | .spdf N _ _ _ => some (if N > 32 then false else true)

/-- `self.twiddleDelay`, set in both composite constructors:
`7` if `N > 32` else `2`.  `none` for a leaf. -/
def FFTNode.twiddleDelay : FFTNode → Option Nat
  | .base _ _ _ _ _ _ _ => none
  | .step4 N _ _ _ _ => some (if N > 32 then 7 else 2)
  | .spdf N _ _ _ => some (if N > 32 then 7 else 2)

/-- `FFTBase.__init__(N, entity, scale, delay1)`: stores the arguments,
initialises both bit orders to `range(myLog2(N))` and the imports list to
`[entity]`. -/
def FFTBase (N : Nat) (entity scale : String) (delay1 : Nat) : FFTNode :=
  .base N entity scale delay1 (List.range (myLog2 N)) (List.range (myLog2 N))
    [entity]

/-- The imports list built by `FFT4Step.__init__`:
`['twiddleAddrGen', 'transposer']`, extended with the twiddle-path entities
(threshold `N > 32`), then `'reorderBuffer'` appended when
`sub2.inputBitOrder()` is not natural. -/
def FFT4Step.initImports (N : Nat) (sub2 : FFTNode) : List String :=
  ["twiddleAddrGen", "transposer"] ++
    (if N > 32 then ["twiddleGenerator", "twiddleRom" ++ toString N]
     else ["twiddleGenerator" ++ toString N]) ++
    (if bitOrderIsNatural sub2.inputBitOrder then [] else ["reorderBuffer"])

/-- `FFT4Step.__init__(N, sub1, sub2, multiplier)`: `assert N == sub1.N*sub2.N`
(modelled as returning `none` on assertion failure), then stores the children,
the multiplier, and the computed imports list. -/
def FFT4Step (N : Nat) (sub1 sub2 : FFTNode) (multiplier : Multiplier) :
    Option FFTNode :=
  if N = sub1.N * sub2.N then
    some (.step4 N sub1 sub2 multiplier (FFT4Step.initImports N sub2))
  else none

/-- The imports list built by `FFTSPDF.__init__`:
`['twiddleAddrGen', 'fft_spdf_stage']`, extended with the twiddle-path
entities (threshold `N > 32`, ROM name appended before the generator name),
then `'reorderBuffer'` appended when `sub1.inputBitOrder()` is not natural. -/
def FFTSPDF.initImports (N : Nat) (sub1 : FFTNode) : List String :=
  ["twiddleAddrGen", "fft_spdf_stage"] ++
    (if N > 32 then ["twiddleRom" ++ toString N, "twiddleGenerator"]
     else ["twiddleGenerator" ++ toString N]) ++
    (if bitOrderIsNatural sub1.inputBitOrder then [] else ["reorderBuffer"])

/-- `FFTSPDF.__init__(N, sub1, multiplier)`: `assert N == sub1.N*4`
(modelled as returning `none` on assertion failure), then stores the child,
the multiplier, and the computed imports list. -/
def FFTSPDF (N : Nat) (sub1 : FFTNode) (multiplier : Multiplier) :
    Option FFTNode :=
  if N = sub1.N * 4 then
    some (.spdf N sub1 multiplier (FFTSPDF.initImports N sub1))
  else none

/-- `FFTBase.setInputBitOrder(bitOrder)`:
`assert len(bitOrder) == myLog2(self.N)` then `self.iBitOrder = bitOrder`.
Only `FFTBase` defines this method (calling it on a composite raises
`AttributeError`, modelled as `none`); the assertion failure is also
modelled as `none`. -/
def FFTNode.setInputBitOrder : FFTNode → List Nat → Option FFTNode
  | .base N e sc d _ o imp, bitOrder =>
      if bitOrder.length = myLog2 N then
        some (.base N e sc d bitOrder o imp)
      else none
  | _, _ => none

/-- `FFTBase.setOutputBitOrder(bitOrder)`:
`assert len(bitOrder) == myLog2(self.N)` then `self.oBitOrder = bitOrder`. -/
def FFTNode.setOutputBitOrder : FFTNode → List Nat → Option FFTNode
  | .base N e sc d i _ imp, bitOrder =>
      if bitOrder.length = myLog2 N then
        some (.base N e sc d i bitOrder imp)
      else none
  | _, _ => none

/-- `getImports()` (recursive form, the default `recursive=True`).
In the source, `ret = self.imports` aliases the stored list;
`ret.append(self.multiplier.entity)` and the `ret.extend(...)` calls on the
children's results mutate the node's stored list in place, and the children's
own stored lists are mutated by their recursive calls.  The embedding
threads this state explicitly: the result is the returned list together with
the mutated node.  `FFTBase.getImports` returns the stored list without
mutating it. -/
def FFTNode.getImports : FFTNode → List String × FFTNode
  | .base N e sc d i o imp => (imp, .base N e sc d i o imp)
  | .step4 N sub1 sub2 m imp =>
      let r1 := sub1.getImports
      let r2 := sub2.getImports
      let ret := imp ++ [m.entity] ++ r1.1 ++ r2.1
      (ret, .step4 N r1.2 r2.2 m ret)
  | .spdf N sub1 m imp =>
      let r1 := sub1.getImports
      let ret := imp ++ [m.entity] ++ r1.1
      (ret, .spdf N r1.2 m ret)

/-- Well-formedness of an architecture tree, as guaranteed by the
constructors and the data-model invariants: every stored size is the
corresponding power of two (leaf sizes are powers of two, composite sizes
are the product of the children's sizes — the constructor assertions), and
every leaf's stored bit orders are permutations of `range(myLog2 N)` (they
are initialised to exactly `range(myLog2 N)` and may be overridden by
permutations of the same length). -/
def FFTNode.wf : FFTNode → Prop
  | .base N _ _ _ i o _ =>
      N = 2 ^ myLog2 N ∧ i.Perm (List.range (myLog2 N)) ∧
        o.Perm (List.range (myLog2 N))
  | .step4 N sub1 sub2 _ _ => N = sub1.N * sub2.N ∧ sub1.wf ∧ sub2.wf
  | .spdf N sub1 _ _ => N = sub1.N * 4 ∧ sub1.wf

instance FFTNode.wfDecidable : (t : FFTNode) → Decidable t.wf
  | .base _ _ _ _ _ _ _ => by unfold wf; exact inferInstance
  | .step4 _ sub1 sub2 _ _ =>
      have := wfDecidable sub1
      have := wfDecidable sub2
      by unfold wf; exact inferInstance
  | .spdf _ sub1 _ _ =>
      have := wfDecidable sub1
      by unfold wf; exact inferInstance

/-! ### Twiddle-ROM table generator (`gen_twiddle_rom_partial.py`) -/

/-- `round()` as used by the source (`int(round(...))`, Python 2 semantics):
round half away from zero. -/
noncomputable def pyRound (x : ℝ) : ℤ :=
  if 0 ≤ x then ⌊x + 1 / 2⌋ else -⌊-x + 1 / 2⌋

/-- One table entry of `printROM(twBits)` in `gen_twiddle_rom_partial.py`,
as the pair `(re1, im1)` of emitted unsigned encodings:
`scale = 2**(twBits-1)`, then `scale -= 1` when `reducedBits` else
`twBits += 1`; `x = float(i)/M * (2*pi)`;
`re1 = int(round(cos(x)*scale))`, `im1 = int(round(sin(x)*scale))`;
negative values get `2**twBits` added (two's-complement encoding).
The source's floating-point `cos`/`sin` are modelled by the exact real
functions. -/
noncomputable def printROMEntry (reducedBits : Bool) (twBits M i : Nat) :
    ℤ × ℤ :=
  let scale : ℤ :=
    if reducedBits then 2 ^ (twBits - 1) - 1 else 2 ^ (twBits - 1)
  let tb : Nat := if reducedBits then twBits else twBits + 1
  let x : ℝ := (i : ℝ) / (M : ℝ) * (2 * Real.pi)
  let re1 : ℤ := pyRound (Real.cos x * (scale : ℝ))
  let im1 : ℤ := pyRound (Real.sin x * (scale : ℝ))
  ((if re1 < 0 then re1 + 2 ^ tb else re1),
   (if im1 < 0 then im1 + 2 ^ tb else im1))

/-- The ROM word printed by `printROM` for index `i`: the concatenation
`fmt.format(im1) + fmt.format(re1)` of the two `tb`-bit binary strings,
i.e. the value `im1 * 2^tb + re1`. -/
noncomputable def printROMWord (reducedBits : Bool) (twBits M i : Nat) : ℤ :=
  let tb : Nat := if reducedBits then twBits else twBits + 1
  (printROMEntry reducedBits twBits M i).2 * 2 ^ tb +
    (printROMEntry reducedBits twBits M i).1

/-- The ROM word as described by the spec's words (claim C9): quantize
`cos(2π·i/M)` and `sin(2π·i/M)` at `scale = 2^(w-1) - 1` in reduced-bits
mode, or `scale = 2^(w-1)` with one extra representation bit otherwise,
with round-half-away-from-zero; encode negative results by adding
`2^(encoding width)`; concatenate `(imag, real)`.  This definition follows
the spec, to be compared against `printROMWord`, which follows the source. -/
noncomputable def specTwiddleWord (reducedBits : Bool) (w M i : Nat) : ℤ :=
  let scale : ℤ := if reducedBits then 2 ^ (w - 1) - 1 else 2 ^ (w - 1)
  let encWidth : Nat := if reducedBits then w else w + 1
  let theta : ℝ := 2 * Real.pi * (i : ℝ) / (M : ℝ)
  let enc : ℤ → ℤ := fun v => if v < 0 then v + 2 ^ encWidth else v
  enc (pyRound (Real.sin theta * (scale : ℝ))) * 2 ^ encWidth +
    enc (pyRound (Real.cos theta * (scale : ℝ)))

/-! ### Helper lemmas -/

theorem log2Aux_two_pow :
    ∀ fuel k : Nat, 2 ^ k ≤ fuel → log2Aux fuel (2 ^ k) = k := by
  intro fuel
  induction fuel with
  | zero =>
      intro k h
      have hpos : 0 < 2 ^ k := Nat.pos_pow_of_pos k (by norm_num)
      omega
  | succ f ih =>
      intro k h
      cases k with
      | zero => simp [log2Aux]
      | succ j =>
          have hge : 2 ^ (j + 1) ≥ 2 := by
            calc (2 : Nat) = 2 ^ 1 := (pow_one 2).symm
            _ ≤ 2 ^ (j + 1) :=
              Nat.pow_le_pow_right (by norm_num) (Nat.succ_le_succ (Nat.zero_le j))
          have hdiv : 2 ^ (j + 1) / 2 = 2 ^ j := by
            rw [pow_succ]
            exact Nat.mul_div_cancel _ (by norm_num)
          have hlt : 2 ^ j < 2 ^ (j + 1) :=
            Nat.pow_lt_pow_right (by norm_num) (Nat.lt_succ_self j)
          rw [log2Aux, if_pos hge, hdiv, ih j (by omega)]

/-- `myLog2` returns the exact exponent on powers of two. -/
theorem myLog2_two_pow (k : Nat) : myLog2 (2 ^ k) = k :=
  log2Aux_two_pow _ k le_rfl

/-- Every well-formed node's stored size is the power of two given by its
own `myLog2`. -/
theorem FFTNode.wf_N_eq_pow : ∀ t : FFTNode, t.wf → t.N = 2 ^ myLog2 t.N := by
  intro t
  induction t with
  | base N e sc d i o imp =>
      intro h
      exact h.1
  | step4 N s1 s2 m imp ih1 ih2 =>
      intro h
      obtain ⟨hN, h1, h2⟩ := h
      have e1 := ih1 h1
      have e2 := ih2 h2
      show N = 2 ^ myLog2 N
      set a := myLog2 s1.N with ha
      set b := myLog2 s2.N with hb
      rw [hN, e1, e2, ← pow_add, myLog2_two_pow]
  | spdf N s1 m imp ih =>
      intro h
      obtain ⟨hN, h1⟩ := h
      have e1 := ih h1
      show N = 2 ^ myLog2 N
      set a := myLog2 s1.N with ha
      have h4 : (4 : Nat) = 2 ^ 2 := rfl
      rw [hN, e1, h4, ← pow_add, myLog2_two_pow]

theorem floor_intCast_add_half (n : ℤ) : ⌊(n : ℝ) + 1 / 2⌋ = n := by
  rw [Int.floor_eq_iff]
  constructor
  · linarith
  · linarith

/-- Rounding half away from zero fixes the integers. -/
theorem pyRound_intCast (n : ℤ) : pyRound ((n : ℤ) : ℝ) = n := by
  unfold pyRound
  rcases le_or_lt 0 ((n : ℤ) : ℝ) with h | h
  · rw [if_pos h, floor_intCast_add_half]
  · rw [if_neg (not_le.mpr h)]
    have h2 : -((n : ℤ) : ℝ) = (((-n : ℤ) : ℤ) : ℝ) := by push_cast; ring
    rw [h2, floor_intCast_add_half, neg_neg]

/-! ### Claim theorems -/

/-- C1: For every FFT4Step composite, `delay()` equals
`sub1.delay() + N + multiplier.delay() + sub2.delay()`, plus an additional
reorder delay of `sub2.N + reorderAdditiveDelay` (with
`reorderAdditiveDelay = 0`) exactly when `sub2.inputBitOrder()` is not the
natural order; when sub2's input order is natural no reorder term is
added. -/
theorem fft4step_delay_eq (N : Nat) (sub1 sub2 : FFTNode) (m : Multiplier)
    (imp : List String) :
    reorderAdditiveDelay = 0 ∧
    (bitOrderIsNatural sub2.inputBitOrder = true →
      (FFTNode.step4 N sub1 sub2 m imp).delay =
        sub1.delay + N + m.delay + sub2.delay) ∧
    (bitOrderIsNatural sub2.inputBitOrder = false →
      (FFTNode.step4 N sub1 sub2 m imp).delay =
        sub1.delay + N + m.delay + sub2.delay +
          (sub2.N + reorderAdditiveDelay)) := by
  refine ⟨rfl, ?_, ?_⟩ <;> intro h <;>
    simp [FFTNode.delay, h, reorderAdditiveDelay]

theorem fft4step_delay_eq_witness :
    bitOrderIsNatural (FFTBase 8 "fft8" "none" 8).inputBitOrder = true ∧
    (FFTNode.step4 64 (FFTBase 8 "fft8" "none" 8) (FFTBase 8 "fft8" "none" 8)
        defaultMult []).delay =
      (FFTBase 8 "fft8" "none" 8).delay + 64 + defaultMult.delay +
        (FFTBase 8 "fft8" "none" 8).delay ∧
    bitOrderIsNatural
        (FFTNode.base 4 "fft4c" "none" 11 [1, 0] [0, 1] ["fft4c"]).inputBitOrder
      = false ∧
    (FFTNode.step4 8 (FFTBase 2 "fft2" "none" 2)
        (FFTNode.base 4 "fft4c" "none" 11 [1, 0] [0, 1] ["fft4c"])
        defaultMult []).delay =
      (FFTBase 2 "fft2" "none" 2).delay + 8 + defaultMult.delay +
        (FFTNode.base 4 "fft4c" "none" 11 [1, 0] [0, 1] ["fft4c"]).delay +
        ((FFTNode.base 4 "fft4c" "none" 11 [1, 0] [0, 1] ["fft4c"]).N +
          reorderAdditiveDelay) :=
  ⟨by decide,
   (fft4step_delay_eq 64 (FFTBase 8 "fft8" "none" 8)
      (FFTBase 8 "fft8" "none" 8) defaultMult []).2.1 (by decide),
   by decide,
   (fft4step_delay_eq 8 (FFTBase 2 "fft2" "none" 2)
      (FFTNode.base 4 "fft4c" "none" 11 [1, 0] [0, 1] ["fft4c"])
      defaultMult []).2.2 (by decide)⟩

/-- C2: For every FFTSPDF composite of size N, `spdf_delay` equals
`N/2 + 3 + N/4 + 3`, and `delay()` equals
`spdf_delay + sub1.delay() + multiplier.delay()`, plus a reorder delay of
`sub1.N + reorderAdditiveDelay` exactly when `sub1.inputBitOrder()` is not
natural; in particular `spdf_delay 16 = 18` (the FFTSPDF(N=16) scenario). -/
theorem fftspdf_delay_eq (N : Nat) (sub1 : FFTNode) (m : Multiplier)
    (imp : List String) :
    spdf_delay N = N / 2 + 3 + N / 4 + 3 ∧
    (bitOrderIsNatural sub1.inputBitOrder = true →
      (FFTNode.spdf N sub1 m imp).delay =
        spdf_delay N + sub1.delay + m.delay) ∧
    (bitOrderIsNatural sub1.inputBitOrder = false →
      (FFTNode.spdf N sub1 m imp).delay =
        spdf_delay N + sub1.delay + m.delay +
          (sub1.N + reorderAdditiveDelay)) ∧
    spdf_delay 16 = 18 := by
  refine ⟨rfl, ?_, ?_, by decide⟩ <;> intro h <;>
    simp [FFTNode.delay, h, reorderAdditiveDelay]

theorem fftspdf_delay_eq_witness :
    bitOrderIsNatural (FFTBase 4 "fft4" "none" 4).inputBitOrder = true ∧
    (FFTNode.spdf 16 (FFTBase 4 "fft4" "none" 4) defaultMult []).delay =
      spdf_delay 16 + (FFTBase 4 "fft4" "none" 4).delay + defaultMult.delay ∧
    bitOrderIsNatural
        (FFTNode.base 4 "fft4c" "none" 11 [1, 0] [0, 1] ["fft4c"]).inputBitOrder
      = false ∧
    (FFTNode.spdf 16 (FFTNode.base 4 "fft4c" "none" 11 [1, 0] [0, 1] ["fft4c"])
        defaultMult []).delay =
      spdf_delay 16 +
        (FFTNode.base 4 "fft4c" "none" 11 [1, 0] [0, 1] ["fft4c"]).delay +
        defaultMult.delay +
        ((FFTNode.base 4 "fft4c" "none" 11 [1, 0] [0, 1] ["fft4c"]).N +
          reorderAdditiveDelay) :=
  ⟨by decide,
   (fftspdf_delay_eq 16 (FFTBase 4 "fft4" "none" 4) defaultMult []).2.1
     (by decide),
   by decide,
   (fftspdf_delay_eq 16
      (FFTNode.base 4 "fft4c" "none" 11 [1, 0] [0, 1] ["fft4c"])
      defaultMult []).2.2.1 (by decide)⟩

/-- C3: For every FFT4Step composite with `O1 = log2(sub1.N)` and
`O2 = log2(sub2.N)`, `inputBitOrder()` equals `[O1, O1+1, ..., O1+O2-1]`
followed by `sub1.inputBitOrder()`, and `outputBitOrder()` equals
`sub1.outputBitOrder()` with every element increased by `O2`, followed by
`sub2.outputBitOrder()` unshifted. -/
theorem fft4step_bitOrders (N : Nat) (sub1 sub2 : FFTNode) (m : Multiplier)
    (imp : List String) :
    (FFTNode.step4 N sub1 sub2 m imp).inputBitOrder =
      ((List.range (myLog2 sub2.N)).map (fun j => myLog2 sub1.N + j)) ++
        sub1.inputBitOrder ∧
    (FFTNode.step4 N sub1 sub2 m imp).outputBitOrder =
      (sub1.outputBitOrder.map (fun x => x + myLog2 sub2.N)) ++
        sub2.outputBitOrder := by
  constructor
  · simp [FFTNode.inputBitOrder, List.range'_eq_map_range]
  · rfl

/-- C4: For every FFTSPDF composite, `inputBitOrder()` is always the natural
order `[0, 1, ..., log2(N)-1]` regardless of sub1's bit orders, and
`outputBitOrder()` equals the two SPDF output bits swapped (`[1,0]`) shifted
up by `O1 = log2(sub1.N)` — i.e. `[O1+1, O1]` — followed by
`sub1.outputBitOrder()`. -/
theorem fftspdf_bitOrders (N : Nat) (sub1 : FFTNode) (m : Multiplier)
    (imp : List String) :
    (FFTNode.spdf N sub1 m imp).inputBitOrder = List.range (myLog2 N) ∧
    (FFTNode.spdf N sub1 m imp).outputBitOrder =
      [myLog2 sub1.N + 1, myLog2 sub1.N] ++ sub1.outputBitOrder := by
  constructor
  · rfl
  · simp [FFTNode.outputBitOrder, Nat.add_comm]

/-- C6: For every constructed FFT4Step and FFTSPDF composite: if `N > 32`
then `simpleTwiddleRom` is `False`, `twiddleDelay` is `7`, and the imports
include `'twiddleGenerator'` and `'twiddleRom<N>'`; if `N <= 32` then
`simpleTwiddleRom` is `True`, `twiddleDelay` is `2`, and the imports include
`'twiddleGenerator<N>'`. -/
theorem twiddle_strategy (N1 N2 : Nat) (s1 s2 s : FFTNode)
    (m1 m2 : Multiplier) (t u : FFTNode)
    (h4 : FFT4Step N1 s1 s2 m1 = some t)
    (hs : FFTSPDF N2 s m2 = some u) :
    (if N1 > 32 then
      t.simpleTwiddleRom = some false ∧ t.twiddleDelay = some 7 ∧
        "twiddleGenerator" ∈ t.imports ∧
        ("twiddleRom" ++ toString N1) ∈ t.imports
     else
      t.simpleTwiddleRom = some true ∧ t.twiddleDelay = some 2 ∧
        ("twiddleGenerator" ++ toString N1) ∈ t.imports) ∧
    (if N2 > 32 then
      u.simpleTwiddleRom = some false ∧ u.twiddleDelay = some 7 ∧
        "twiddleGenerator" ∈ u.imports ∧
        ("twiddleRom" ++ toString N2) ∈ u.imports
     else
      u.simpleTwiddleRom = some true ∧ u.twiddleDelay = some 2 ∧
        ("twiddleGenerator" ++ toString N2) ∈ u.imports) := by
  rw [FFT4Step] at h4
  rw [FFTSPDF] at hs
  split at h4
  case isFalse => exact absurd h4 (by simp)
  split at hs
  case isFalse => exact absurd hs (by simp)
  obtain rfl : _ = t := Option.some.inj h4
  obtain rfl : _ = u := Option.some.inj hs
  constructor
  · by_cases h : N1 > 32 <;>
      simp [h, FFTNode.simpleTwiddleRom, FFTNode.twiddleDelay,
        FFTNode.imports, FFT4Step.initImports]
  · by_cases h : N2 > 32 <;>
      simp [h, FFTNode.simpleTwiddleRom, FFTNode.twiddleDelay,
        FFTNode.imports, FFTSPDF.initImports]

theorem twiddle_strategy_witness :
    FFT4Step 64 (FFTBase 8 "fft8" "none" 8) (FFTBase 8 "fft8" "none" 8)
        defaultMult =
      some (FFTNode.step4 64 (FFTBase 8 "fft8" "none" 8)
        (FFTBase 8 "fft8" "none" 8) defaultMult
        ["twiddleAddrGen", "transposer", "twiddleGenerator", "twiddleRom64"]) ∧
    FFTSPDF 16 (FFTBase 4 "fft4" "none" 4) defaultMult =
      some (FFTNode.spdf 16 (FFTBase 4 "fft4" "none" 4) defaultMult
        ["twiddleAddrGen", "fft_spdf_stage", "twiddleGenerator16"]) ∧
    ((if 64 > 32 then
      (FFTNode.step4 64 (FFTBase 8 "fft8" "none" 8)
        (FFTBase 8 "fft8" "none" 8) defaultMult
        ["twiddleAddrGen", "transposer", "twiddleGenerator",
          "twiddleRom64"]).simpleTwiddleRom = some false ∧
        (FFTNode.step4 64 (FFTBase 8 "fft8" "none" 8)
          (FFTBase 8 "fft8" "none" 8) defaultMult
          ["twiddleAddrGen", "transposer", "twiddleGenerator",
            "twiddleRom64"]).twiddleDelay = some 7 ∧
        "twiddleGenerator" ∈
          (FFTNode.step4 64 (FFTBase 8 "fft8" "none" 8)
            (FFTBase 8 "fft8" "none" 8) defaultMult
            ["twiddleAddrGen", "transposer", "twiddleGenerator",
              "twiddleRom64"]).imports ∧
        ("twiddleRom" ++ toString 64) ∈
          (FFTNode.step4 64 (FFTBase 8 "fft8" "none" 8)
            (FFTBase 8 "fft8" "none" 8) defaultMult
            ["twiddleAddrGen", "transposer", "twiddleGenerator",
              "twiddleRom64"]).imports
     else
      (FFTNode.step4 64 (FFTBase 8 "fft8" "none" 8)
        (FFTBase 8 "fft8" "none" 8) defaultMult
        ["twiddleAddrGen", "transposer", "twiddleGenerator",
          "twiddleRom64"]).simpleTwiddleRom = some true ∧
        (FFTNode.step4 64 (FFTBase 8 "fft8" "none" 8)
          (FFTBase 8 "fft8" "none" 8) defaultMult
          ["twiddleAddrGen", "transposer", "twiddleGenerator",
            "twiddleRom64"]).twiddleDelay = some 2 ∧
        ("twiddleGenerator" ++ toString 64) ∈
          (FFTNode.step4 64 (FFTBase 8 "fft8" "none" 8)
            (FFTBase 8 "fft8" "none" 8) defaultMult
            ["twiddleAddrGen", "transposer", "twiddleGenerator",
              "twiddleRom64"]).imports) ∧
     (if 16 > 32 then
      (FFTNode.spdf 16 (FFTBase 4 "fft4" "none" 4) defaultMult
        ["twiddleAddrGen", "fft_spdf_stage",
          "twiddleGenerator16"]).simpleTwiddleRom = some false ∧
        (FFTNode.spdf 16 (FFTBase 4 "fft4" "none" 4) defaultMult
          ["twiddleAddrGen", "fft_spdf_stage",
            "twiddleGenerator16"]).twiddleDelay = some 7 ∧
        "twiddleGenerator" ∈
          (FFTNode.spdf 16 (FFTBase 4 "fft4" "none" 4) defaultMult
            ["twiddleAddrGen", "fft_spdf_stage",
              "twiddleGenerator16"]).imports ∧
        ("twiddleRom" ++ toString 16) ∈
          (FFTNode.spdf 16 (FFTBase 4 "fft4" "none" 4) defaultMult
            ["twiddleAddrGen", "fft_spdf_stage",
              "twiddleGenerator16"]).imports
     else
      (FFTNode.spdf 16 (FFTBase 4 "fft4" "none" 4) defaultMult
        ["twiddleAddrGen", "fft_spdf_stage",
          "twiddleGenerator16"]).simpleTwiddleRom = some true ∧
        (FFTNode.spdf 16 (FFTBase 4 "fft4" "none" 4) defaultMult
          ["twiddleAddrGen", "fft_spdf_stage",
            "twiddleGenerator16"]).twiddleDelay = some 2 ∧
        ("twiddleGenerator" ++ toString 16) ∈
          (FFTNode.spdf 16 (FFTBase 4 "fft4" "none" 4) defaultMult
            ["twiddleAddrGen", "fft_spdf_stage",
              "twiddleGenerator16"]).imports)) :=
  ⟨by decide, by decide,
   twiddle_strategy 64 16 (FFTBase 8 "fft8" "none" 8)
     (FFTBase 8 "fft8" "none" 8) (FFTBase 4 "fft4" "none" 4)
     defaultMult defaultMult _ _ (by decide) (by decide)⟩

/-- C7: Construction of `FFT4Step(N, sub1, sub2)` fails immediately exactly
when `N ≠ sub1.N * sub2.N`, and construction of `FFTSPDF(N, sub1)` fails
immediately exactly when `N ≠ sub1.N * 4`; when the size factorization
holds, construction succeeds. -/
theorem construction_guard (N1 N2 : Nat) (s1 s2 s : FFTNode)
    (m1 m2 : Multiplier) :
    ((FFT4Step N1 s1 s2 m1).isSome = true ↔ N1 = s1.N * s2.N) ∧
    ((FFTSPDF N2 s m2).isSome = true ↔ N2 = s.N * 4) := by
  constructor
  · rw [FFT4Step]
    split <;> simp_all
  · rw [FFTSPDF]
    split <;> simp_all

/-- C10: For every FFT4Step or FFTSPDF composite, `getImports()` appends to
the node's stored imports list in place (the multiplier's entity name and,
recursively, the children's imports), the returned list is the node's
stored list after the call, and a second call on the (mutated) node returns
a strictly longer list than the first: `getImports()` is not idempotent. -/
theorem getImports_mutates (N1 N2 : Nat) (s1 s2 s : FFTNode)
    (m1 m2 : Multiplier) (imp1 imp2 : List String) :
    ((FFTNode.step4 N1 s1 s2 m1 imp1).getImports.1 =
        imp1 ++ [m1.entity] ++ s1.getImports.1 ++ s2.getImports.1 ∧
      (FFTNode.step4 N1 s1 s2 m1 imp1).getImports.2.imports =
        (FFTNode.step4 N1 s1 s2 m1 imp1).getImports.1 ∧
      (FFTNode.step4 N1 s1 s2 m1 imp1).getImports.2.getImports.1.length >
        (FFTNode.step4 N1 s1 s2 m1 imp1).getImports.1.length) ∧
    ((FFTNode.spdf N2 s m2 imp2).getImports.1 =
        imp2 ++ [m2.entity] ++ s.getImports.1 ∧
      (FFTNode.spdf N2 s m2 imp2).getImports.2.imports =
        (FFTNode.spdf N2 s m2 imp2).getImports.1 ∧
      (FFTNode.spdf N2 s m2 imp2).getImports.2.getImports.1.length >
        (FFTNode.spdf N2 s m2 imp2).getImports.1.length) := by
  refine ⟨⟨rfl, rfl, ?_⟩, ⟨rfl, rfl, ?_⟩⟩ <;>
    · simp only [FFTNode.getImports, List.length_append, List.length_cons,
        List.length_nil]
      omega

/-- C8 counterexample: the claim says a bit-order argument that is not a
permutation is rejected, but `FFTBase.setInputBitOrder` only asserts the
length: the length-2 non-permutation `[0, 0]` is accepted by an
`FFTBase(4, ...)` leaf and stored unchanged. -/
theorem setBitOrder_nonperm_accepted :
    ¬ List.Perm [0, 0] (List.range (myLog2 4)) ∧
    (FFTBase 4 "fft4" "none" 6).setInputBitOrder [0, 0] =
      some (FFTNode.base 4 "fft4" "none" 6 [0, 0] [0, 1] ["fft4"]) ∧
    (FFTNode.base 4 "fft4" "none" 6 [0, 0] [0, 1] ["fft4"]).inputBitOrder =
      [0, 0] := by
  refine ⟨by decide, by decide, rfl⟩

/-- C8 as amended: `setInputBitOrder`/`setOutputBitOrder` on an FFTBase leaf
require only that the argument's *length* equal `log2(N)` (the permutation
property itself is not checked): a wrong-length argument is rejected
immediately as a precondition failure, never truncated or padded, and an
accepted argument is stored unchanged and returned by
`inputBitOrder()`/`outputBitOrder()`, leaving the other bit order intact. -/
theorem setBitOrder_length_guard (N : Nat) (e sc : String) (d : Nat)
    (i o : List Nat) (imp : List String) (bo : List Nat) :
    (((FFTNode.base N e sc d i o imp).setInputBitOrder bo).isSome = true ↔
      bo.length = myLog2 N) ∧
    (((FFTNode.base N e sc d i o imp).setOutputBitOrder bo).isSome = true ↔
      bo.length = myLog2 N) ∧
    (∀ t', (FFTNode.base N e sc d i o imp).setInputBitOrder bo = some t' →
      t'.inputBitOrder = bo ∧ t'.outputBitOrder = o) ∧
    (∀ t', (FFTNode.base N e sc d i o imp).setOutputBitOrder bo = some t' →
      t'.outputBitOrder = bo ∧ t'.inputBitOrder = i) := by
  refine ⟨?_, ?_, ?_, ?_⟩
  · rw [FFTNode.setInputBitOrder]
    split <;> simp_all
  · rw [FFTNode.setOutputBitOrder]
    split <;> simp_all
  · intro t' h
    rw [FFTNode.setInputBitOrder] at h
    split at h
    · obtain rfl : _ = t' := Option.some.inj h
      exact ⟨rfl, rfl⟩
    · exact absurd h (by simp)
  · intro t' h
    rw [FFTNode.setOutputBitOrder] at h
    split at h
    · obtain rfl : _ = t' := Option.some.inj h
      exact ⟨rfl, rfl⟩
    · exact absurd h (by simp)

theorem setBitOrder_length_guard_witness :
    (((FFTNode.base 4 "fft4" "none" 6 [0, 1] [0, 1] ["fft4"]).setInputBitOrder
        [1, 0]).isSome = true ↔ ([1, 0] : List Nat).length = myLog2 4) ∧
    (FFTNode.base 4 "fft4" "none" 6 [0, 1] [0, 1] ["fft4"]).setInputBitOrder
        [1, 0] =
      some (FFTNode.base 4 "fft4" "none" 6 [1, 0] [0, 1] ["fft4"]) ∧
    (FFTNode.base 4 "fft4" "none" 6 [1, 0] [0, 1] ["fft4"]).inputBitOrder =
        [1, 0] ∧
    (FFTNode.base 4 "fft4" "none" 6 [1, 0] [0, 1] ["fft4"]).outputBitOrder =
        [0, 1] :=
  ⟨(setBitOrder_length_guard 4 "fft4" "none" 6 [0, 1] [0, 1] ["fft4"]
      [1, 0]).1,
   by decide,
   ((setBitOrder_length_guard 4 "fft4" "none" 6 [0, 1] [0, 1] ["fft4"]
      [1, 0]).2.2.1 _ (by decide)).1,
   ((setBitOrder_length_guard 4 "fft4" "none" 6 [0, 1] [0, 1] ["fft4"]
      [1, 0]).2.2.1 _ (by decide)).2⟩

/-- C5: For every node of a well-formed tree (leaf sizes powers of two,
composite sizes the product of the children's sizes, leaf bit orders
permutations of `[0, log2(leaf.N))` — which covers every FFT4Step and
FFTSPDF composite built from such leaves), `inputBitOrder()` and
`outputBitOrder()` are permutations of `[0, log2(N))`. -/
theorem bitOrders_perm_of_wf (t : FFTNode) (h : t.wf) :
    t.inputBitOrder.Perm (List.range (myLog2 t.N)) ∧
    t.outputBitOrder.Perm (List.range (myLog2 t.N)) := by
  induction t with
  | base N e sc d i o imp =>
      exact ⟨h.2.1, h.2.2⟩
  | step4 N s1 s2 m imp ih1 ih2 =>
      obtain ⟨hN, h1, h2⟩ := h
      obtain ⟨i1, o1⟩ := ih1 h1
      obtain ⟨i2, o2⟩ := ih2 h2
      have e1 := FFTNode.wf_N_eq_pow s1 h1
      have e2 := FFTNode.wf_N_eq_pow s2 h2
      set a := myLog2 s1.N with ha
      set b := myLog2 s2.N with hb
      have hlogN : myLog2 N = a + b := by
        rw [hN, e1, e2, ← pow_add, myLog2_two_pow]
      constructor
      · show (List.range' a b ++ s1.inputBitOrder).Perm
          (List.range (myLog2 N))
        rw [hlogN, List.range_add, List.range'_eq_map_range]
        exact List.perm_append_comm.trans (i1.append (List.Perm.refl _))
      · show ((s1.outputBitOrder.map fun x => x + b) ++
            s2.outputBitOrder).Perm (List.range (myLog2 N))
        rw [hlogN]
        have step1 : ((s1.outputBitOrder.map fun x => x + b) ++
            s2.outputBitOrder).Perm
            (List.range b ++ ((List.range a).map fun x => x + b)) :=
          List.perm_append_comm.trans (o2.append (o1.map _))
        refine step1.trans ?_
        have hsplit : List.range (a + b) =
            List.range b ++ ((List.range a).map fun x => x + b) := by
          rw [Nat.add_comm a b, List.range_add]
          congr 1
          exact List.map_congr_left fun x _ => Nat.add_comm b x
        rw [hsplit]
  | spdf N s1 m imp ih =>
      obtain ⟨hN, h1⟩ := h
      obtain ⟨i1, o1⟩ := ih h1
      have e1 := FFTNode.wf_N_eq_pow s1 h1
      set a := myLog2 s1.N with ha
      have hlogN : myLog2 N = a + 2 := by
        have h4 : (4 : Nat) = 2 ^ 2 := by norm_num
        rw [hN, e1, h4, ← pow_add, myLog2_two_pow]
      constructor
      · exact List.Perm.refl _
      · show ((([1, 0] : List Nat).map fun x => x + a) ++
            s1.outputBitOrder).Perm (List.range (myLog2 N))
        rw [hlogN]
        have hmap : (([1, 0] : List Nat).map fun x => x + a) = [1 + a, 0 + a] :=
          rfl
        have swap2 : ([1 + a, 0 + a] : List Nat).Perm [0 + a, 1 + a] :=
          List.Perm.swap _ _ _
        have step1 : ((([1, 0] : List Nat).map fun x => x + a) ++
            s1.outputBitOrder).Perm (List.range a ++ [0 + a, 1 + a]) := by
          rw [hmap]
          exact List.perm_append_comm.trans
            (o1.append swap2)
        refine step1.trans ?_
        have hsplit : List.range (a + 2) = List.range a ++ [0 + a, 1 + a] := by
          have h2 : List.range 2 = [0, 1] := rfl
          rw [List.range_add, h2]
          simp [Nat.add_comm]
        rw [hsplit]

theorem bitOrders_perm_of_wf_witness :
    (FFTNode.step4 8 (FFTNode.base 2 "fft2" "none" 3 [0] [0] ["fft2"])
        (FFTNode.base 4 "fft4c" "none" 5 [1, 0] [1, 0] ["fft4c"])
        defaultMult []).wf ∧
    ((FFTNode.step4 8 (FFTNode.base 2 "fft2" "none" 3 [0] [0] ["fft2"])
        (FFTNode.base 4 "fft4c" "none" 5 [1, 0] [1, 0] ["fft4c"])
        defaultMult []).inputBitOrder.Perm
      (List.range (myLog2
        (FFTNode.step4 8 (FFTNode.base 2 "fft2" "none" 3 [0] [0] ["fft2"])
          (FFTNode.base 4 "fft4c" "none" 5 [1, 0] [1, 0] ["fft4c"])
          defaultMult []).N)) ∧
     (FFTNode.step4 8 (FFTNode.base 2 "fft2" "none" 3 [0] [0] ["fft2"])
        (FFTNode.base 4 "fft4c" "none" 5 [1, 0] [1, 0] ["fft4c"])
        defaultMult []).outputBitOrder.Perm
      (List.range (myLog2
        (FFTNode.step4 8 (FFTNode.base 2 "fft2" "none" 3 [0] [0] ["fft2"])
          (FFTNode.base 4 "fft4c" "none" 5 [1, 0] [1, 0] ["fft4c"])
          defaultMult []).N))) :=
  ⟨by decide,
   bitOrders_perm_of_wf
     (FFTNode.step4 8 (FFTNode.base 2 "fft2" "none" 3 [0] [0] ["fft2"])
       (FFTNode.base 4 "fft4c" "none" 5 [1, 0] [1, 0] ["fft4c"])
       defaultMult []) (by decide)⟩

/-- C9: For every table index `i` and requested width `w`, the twiddle ROM
word is formed by quantizing `cos(2π·i/M)` and `sin(2π·i/M)` at
`scale = 2^(w-1) - 1` in reduced-bits mode or `scale = 2^(w-1)` with one
extra representation bit otherwise, with round-half-away-from-zero,
encoding negative results by adding `2^(encoding width)` (two's
complement), and concatenating `(imag, real)`; in particular index 0
quantizes exactly to real = scale and imag = 0. -/
theorem twiddle_rom_quantization (reducedBits : Bool) (w M i : Nat)
    (_hw : 1 ≤ w) (_hM : 1 ≤ M) :
    printROMWord reducedBits w M i = specTwiddleWord reducedBits w M i ∧
    (printROMEntry reducedBits w M 0).1 =
      (if reducedBits then 2 ^ (w - 1) - 1 else 2 ^ (w - 1)) ∧
    (printROMEntry reducedBits w M 0).2 = 0 := by
  have key : printROMEntry reducedBits w M 0 =
      ((if reducedBits then (2 : ℤ) ^ (w - 1) - 1 else 2 ^ (w - 1)), 0) := by
    have hx0 : ((0 : Nat) : ℝ) / (M : ℝ) * (2 * Real.pi) = 0 := by simp
    have hsnn : (0 : ℤ) ≤
        (if reducedBits then (2 : ℤ) ^ (w - 1) - 1 else 2 ^ (w - 1)) := by
      have hp : (0 : ℤ) < 2 ^ (w - 1) := pow_pos (by norm_num) _
      split <;> omega
    simp only [printROMEntry, hx0, Real.cos_zero, Real.sin_zero, one_mul,
      zero_mul]
    rw [show (0 : ℝ) = ((0 : ℤ) : ℝ) by norm_num, pyRound_intCast,
      pyRound_intCast, if_neg (not_lt.mpr hsnn),
      if_neg (by norm_num : ¬ (0 : ℤ) < 0)]
  refine ⟨?_, by rw [key], by rw [key]⟩
  have hx : (i : ℝ) / (M : ℝ) * (2 * Real.pi) =
      2 * Real.pi * (i : ℝ) / (M : ℝ) := by ring
  simp only [printROMWord, printROMEntry, specTwiddleWord, hx]

theorem twiddle_rom_quantization_witness :
    printROMWord true 8 4096 0 = specTwiddleWord true 8 4096 0 ∧
    (printROMEntry true 8 4096 0).1 = 127 ∧
    (printROMEntry true 8 4096 0).2 = 0 := by
  have h := twiddle_rom_quantization true 8 4096 0 (by norm_num) (by norm_num)
  refine ⟨h.1, ?_, h.2.2⟩
  rw [h.2.1]
  norm_num

end FFTGen
